import Mathlib

/-!
Shallow embedding of `src/mycommander.c`, a two-pane curses file manager.

Modelling conventions:
* C byte strings (`char *` names, buffers) are `List Char`, one `Char` per
  byte; comparisons are by code point, matching byte-wise `strcmp` order.
* `struct stat` is reduced to the two mode bits the program inspects
  (`S_ISDIR`, `S_IXUSR`).
* The filesystem, `chdir`/`getcwd`, and the `access` probe are external
  collaborators; each main-loop iteration receives their answers through an
  `Env` oracle.  `readdir` output is a raw listing (`List RawEntry`), with
  `none` modelling an `opendir` failure and a `none` stat modelling a
  per-entry `stat` failure.
* `getch` results are `Int` key codes exactly as ncurses delivers them
  (`ERR = -1`, `KEY_UP = 259`, `KEY_DOWN = 258`, `KEY_BACKSPACE = 263`,
  `KEY_F(n) = 264 + n`).
* An out-of-range array read `entries[selected]` is undefined behaviour in
  C; the model returns the junk entry `emptyEntry` there.
-/

/-- `FileType` enum from mycommander.c lines 16-23. -/
inductive FileType where
  | folder
  | text
  | exec
  | image
  | video
  | other
deriving DecidableEq

/-- The two `st_mode` bits consulted by `detect_file_type` (`S_ISDIR`, `S_IXUSR`). -/
structure Stat where
  isDir : Bool
  ownerExec : Bool
deriving DecidableEq

/-- `Entry` struct, lines 25-28. -/
structure Entry where
  name : List Char
  type : FileType
deriving DecidableEq

/-- Junk entry standing in for an undefined-behaviour out-of-range read. -/
def emptyEntry : Entry := ⟨[], FileType.other⟩

/-- One `readdir` result together with the outcome of the `stat` call on it
(`none` = `stat` failed). -/
structure RawEntry where
  name : List Char
  st : Option Stat
deriving DecidableEq

/-- `Panel` struct, lines 30-36.  The C fixed array plus `count` is a list;
`count = entries.length`. -/
structure Panel where
  entries : List Entry
  selected : Nat
  scroll_offset : Nat
  cwd : List Char
deriving DecidableEq

/-- `MAX_FILES`, line 10. -/
def MAX_FILES : Nat := 4096

/-- `PATH_MAX_LEN`, line 11 (bounds the rename buffer). -/
def PATH_MAX_LEN : Nat := 4096

/-- `sizeof(input) = 512`, line 174 (bounds the input buffer). -/
def INPUT_CAP : Nat := 512

/-- C `strrchr`: the suffix of `s` starting at the last occurrence of `c`,
or `none` when `c` does not occur. -/
def strrchr (s : List Char) (c : Char) : Option (List Char) :=
  match s with
  | [] => none
  | a :: rest =>
    match strrchr rest c with
    | some r => some r
    | none => if a = c then some (a :: rest) else none

/-- Sign of C `strcmp` on byte strings: `-1`, `0`, or `1`. -/
def strcmpS : List Char → List Char → Int
  | [], [] => 0
  | [], _ :: _ => -1
  | _ :: _, [] => 1
  | a :: as, b :: bs =>
    if a < b then -1 else if b < a then 1 else strcmpS as bs

/-- `detect_file_type`, lines 38-48.  The extension is the `strrchr` suffix of
the full path from its last dot. -/
def detect_file_type (path : List Char) (st : Stat) : FileType :=
  if st.isDir then FileType.folder
  else if st.ownerExec then FileType.exec
  else
    match strrchr path '.' with
    | some ext =>
      if ext = ['.', 't', 'x', 't'] ∨ ext = ['.', 'm', 'd'] then FileType.text
      else if ext = ['.', 'p', 'n', 'g'] ∨ ext = ['.', 'j', 'p', 'g'] then FileType.image
      else if ext = ['.', 'm', 'p', '4'] ∨ ext = ['.', 'm', 'k', 'v'] then FileType.video
      else FileType.other
    | none => FileType.other

/-- `compare_entries`, lines 50-56: folders first, then byte-wise `strcmp`. -/
def compare_entries (ea eb : Entry) : Int :=
  if ea.type = FileType.folder ∧ eb.type ≠ FileType.folder then -1
  else if ea.type ≠ FileType.folder ∧ eb.type = FileType.folder then 1
  else strcmpS ea.name eb.name

/-- The order relation realised by `qsort(..., compare_entries)`. -/
abbrev entryLe (ea eb : Entry) : Prop := compare_entries ea eb ≤ 0

/-- `qsort` on the entry array (line 76), modelled as a deterministic sort
producing a `compare_entries`-sorted permutation. -/
def sortEntries (l : List Entry) : List Entry := List.insertionSort entryLe l

/-- Body of the `readdir` loop, lines 66-72: keep the name, classify via
`stat` on `cwd ++ "/" ++ name`, `TYPE_OTHER` when `stat` fails. -/
def scan_entry (cwd : List Char) (e : RawEntry) : Entry :=
  match e.st with
  | some st => ⟨e.name, detect_file_type (cwd ++ '/' :: e.name) st⟩
  | none => ⟨e.name, FileType.other⟩

/-- `list_dir`, lines 58-77.  `dirents = none` is an `opendir` failure: the
panel is returned untouched (line 60).  Otherwise the raw listing is scanned
skipping `"."` (line 65), capped at `MAX_FILES` (line 64), classified and
sorted. -/
def list_dir (panel : Panel) (dirents : Option (List RawEntry)) : Panel :=
  match dirents with
  | none => panel
  | some raw =>
    let kept := (raw.filter (fun e => e.name ≠ ['.'])).take MAX_FILES
    { panel with entries := sortEntries (kept.map (scan_entry panel.cwd)) }

/-- State effect of `draw_panel`, lines 88-89: reconcile the scroll offset
with the cursor for `list_h` visible rows (the drawing itself has no state
effect). -/
def draw_panel (listH : Nat) (p : Panel) : Panel :=
  let so := if p.selected < p.scroll_offset then p.selected else p.scroll_offset
  let so2 := if p.selected ≥ so + listH then p.selected + 1 - listH else so
  { p with scroll_offset := so2 }

/-- Decimal digit to ASCII, the rendering used by `snprintf`'s `%d`. -/
def digitChar : Nat → Char
  | 0 => '0'
  | 1 => '1'
  | 2 => '2'
  | 3 => '3'
  | 4 => '4'
  | 5 => '5'
  | 6 => '6'
  | 7 => '7'
  | 8 => '8'
  | 9 => '9'
  | _ => '?'

/-- Decimal rendering of a positive integer, as printed by `%d` (line 276). -/
def natDecimal (n : Nat) : List Char := (Nat.digits 10 n).reverse.map digitChar

/-- The candidate sequence probed by Paste: `base`, `base1`, `base2`, …
(lines 273-277). -/
def targetName (base : List Char) (i : Nat) : List Char :=
  if i = 0 then base else base ++ natDecimal i

/-- The `while (access(target, F_OK) == 0)` probe of lines 274-277, with
explicit fuel (the C loop is unbounded; sufficient fuel is proved below).
`dir` is the set of names that exist in the destination directory. -/
def pasteProbe (dir : List (List Char)) (base : List Char) : Nat → Nat → List Char
  | 0, i => targetName base i
  | fuel + 1, i =>
    if targetName base i ∈ dir then pasteProbe dir base fuel (i + 1)
    else targetName base i

/-- The target name chosen by Paste, lines 270-277 (fuel `dir.length + 1`
always suffices, see `pasteProbe` lemmas). -/
def resolveTarget (dir : List (List Char)) (base : List Char) : List Char :=
  pasteProbe dir base (dir.length + 1) 0

/-- `strrchr`-based basename extraction of lines 270-271 (also the
`basename` notion used by the classifier claims). -/
def basename (s : List Char) : List Char :=
  match strrchr s '/' with
  | none => s
  | some suf => suf.tail

/-- Focus flag, line 172 (`FOCUS_L`/`FOCUS_R`). -/
structure AppState where
  l : Panel
  r : Panel
  focus_left : Bool
  input : List Char
  clipboard : List Char
  status : List Char
  rename_mode : Bool
  rename_buf : List Char
deriving DecidableEq

/-- Per-iteration oracle for the external collaborators:
* `fs path` — the raw `readdir` listing of `path` at the moment `list_dir`
  runs in this iteration (after any `rm`/`cp`/`rename` side effect), `none`
  when `opendir` fails;
* `getcwdAfterChdir name` — the process cwd reported by `getcwd` after
  `open_entry` performed `chdir(name)`;
* `getcwdNoChdir` — the cwd reported by `getcwd` when no `chdir` happened;
* `destNames` — the names that exist in the focused panel's cwd, answering
  the `access(target, F_OK)` probes of Paste;
* `listH` — `list_h = window height - 2` used by `draw_panel`. -/
structure Env where
  fs : List Char → Option (List RawEntry)
  getcwdAfterChdir : List Char → List Char
  getcwdNoChdir : List Char
  destNames : List (List Char)
  listH : Nat

/-- ncurses `KEY_UP` (octal 0403). -/
def KEY_UP : Int := 259

/-- ncurses `KEY_DOWN` (octal 0402). -/
def KEY_DOWN : Int := 258

/-- ncurses `KEY_BACKSPACE` (octal 0407). -/
def KEY_BACKSPACE : Int := 263

/-- ncurses `KEY_F(1) = 264 + 1`. -/
def KEY_F1 : Int := 265

/-- ncurses `KEY_F(2)`. -/
def KEY_F2 : Int := 266

/-- ncurses `KEY_F(3)`. -/
def KEY_F3 : Int := 267

/-- ncurses `KEY_F(5)`. -/
def KEY_F5 : Int := 269

/-- The focused panel, `(focus == FOCUS_L) ? &l : &r`. -/
def focusedPanel (s : AppState) : Panel := if s.focus_left then s.l else s.r

/-- Write back the focused panel. -/
def setFocused (s : AppState) (p : Panel) : AppState :=
  if s.focus_left then { s with l := p } else { s with r := p }

/-- The byte stored by `buf[l] = ch` for an `int` key code (C narrowing
conversion to a byte). -/
def byteOfKey (ch : Int) : Char := Char.ofNat ((ch % 256).toNat)

/-- The cwd that `getcwd` reports at line 147, determined by which branch of
`open_entry` ran: `".."` and folders `chdir` first (lines 125, 129), the
text-editor and opener branches do not change the process cwd. -/
def open_cwd (env : Env) (p : Panel) : List Char :=
  let sel := p.entries.getD p.selected emptyEntry
  if sel.name = ['.', '.'] then env.getcwdAfterChdir ['.', '.']
  else
    match sel.type with
    | FileType.folder => env.getcwdAfterChdir sel.name
    | _ => env.getcwdNoChdir

/-- `open_entry`, lines 123-149: run the branch's external effect, then on
every path re-read the cwd via `getcwd`, refresh the listing, and reset
`selected` and `scroll_offset` to `0` (lines 147-148). -/
def open_entry (env : Env) (p : Panel) : Panel :=
  let cwdNow := open_cwd env p
  let p1 : Panel := { p with cwd := cwdNow }
  let p2 := list_dir p1 (env.fs cwdNow)
  { p2 with selected := 0, scroll_offset := 0 }

/-- Key dispatch of one main-loop iteration, lines 215-306, for an
adequately sized window.  Returns `none` when the loop `break`s (quit), and
otherwise the successor state together with the transient status text
written by `snprintf` before the `sleep_ms(1000); status[0] = 0` sequence
(the state's `status` field holds the value after that timed clear). -/
def dispatch (env : Env) (s : AppState) (ch : Int) :
    Option (AppState × Option (List Char)) :=
  if ch = 113 then none
  else if s.rename_mode then
    if ch = 10 then
      let p := focusedPanel s
      let p2 := list_dir p (env.fs p.cwd)
      some ({ setFocused s p2 with rename_mode := false, rename_buf := [] }, none)
    else if ch = KEY_F3 then
      some ({ s with rename_mode := false, rename_buf := [] }, none)
    else if ch = 127 ∨ ch = KEY_BACKSPACE then
      some ({ s with rename_buf := s.rename_buf.dropLast }, none)
    else if ch < 256 ∧ s.rename_buf.length < PATH_MAX_LEN - 1 then
      some ({ s with rename_buf := s.rename_buf ++ [byteOfKey ch] }, none)
    else some (s, none)
  else if ch = 9 then
    some ({ s with focus_left := !s.focus_left }, none)
  else if ch = KEY_UP ∨ ch = KEY_DOWN then
    let p := focusedPanel s
    let p1 := if ch = KEY_UP ∧ 0 < p.selected then { p with selected := p.selected - 1 } else p
    let p2 := if ch = KEY_DOWN ∧ p1.selected + 1 < p1.entries.length then
        { p1 with selected := p1.selected + 1 } else p1
    some (setFocused s p2, none)
  else if ch = 10 then
    if s.input ≠ [] then
      some ({ s with input := [] }, none)
    else
      some (setFocused s (open_entry env (focusedPanel s)), none)
  else if ch = KEY_F1 then
    let p := focusedPanel s
    let name := (p.entries.getD p.selected emptyEntry).name
    some ({ s with clipboard := p.cwd ++ '/' :: name, status := [] },
      some (['C', 'o', 'p', 'i', 'e', 'd', ' '] ++ name))
  else if ch = KEY_F2 ∧ s.clipboard ≠ [] then
    let p := focusedPanel s
    let target := resolveTarget env.destNames (basename s.clipboard)
    let p2 := list_dir p (env.fs p.cwd)
    some ({ setFocused s p2 with status := [] },
      some (['P', 'a', 's', 't', 'e', 'd', ' '] ++ target))
  else if ch = KEY_F3 then
    some ({ s with rename_mode := !s.rename_mode, rename_buf := [] }, none)
  else if ch = KEY_F5 then
    let p := focusedPanel s
    let p2 := list_dir p (env.fs p.cwd)
    let name := (p2.entries.getD p.selected emptyEntry).name
    some ({ setFocused s p2 with status := [] },
      some (['D', 'e', 'l', 'e', 't', 'e', 'd', ' '] ++ name))
  else if ch ≠ -1 then
    if ch = 127 ∨ ch = KEY_BACKSPACE then
      some ({ s with input := s.input.dropLast }, none)
    else if ch < 256 ∧ s.input.length < INPUT_CAP - 1 then
      some ({ s with input := s.input ++ [byteOfKey ch] }, none)
    else some (s, none)
  else some (s, none)

/-- One main-loop iteration: dispatch the key, then redraw both panels
(lines 308-309), which reconciles each panel's scroll offset. -/
def step (env : Env) (s : AppState) (ch : Int) :
    Option (AppState × Option (List Char)) :=
  (dispatch env s ch).map (fun out =>
    ({ out.1 with l := draw_panel env.listH out.1.l, r := draw_panel env.listH out.1.r },
      out.2))

/-- A directory `stat` result. -/
def statDir : Stat := ⟨true, false⟩

/-- A plain non-executable file `stat` result. -/
def statFile : Stat := ⟨false, false⟩

/-- Concrete right-hand panel fixture (root directory, empty listing). -/
def panelRoot : Panel := ⟨[], 0, 0, ['/']⟩

/-- Concrete left panel for the delete-the-last-entry scenario: listing
`["..", "a"]`, cursor on the last entry `a`. -/
def panelLastSel : Panel :=
  ⟨[⟨['.', '.'], FileType.folder⟩, ⟨['a'], FileType.other⟩], 1, 0, ['/', 't']⟩

/-- Concrete left panel for spec scenario E: listing `["..", "a", "b", "c"]`,
cursor on `b`. -/
def panelScenE : Panel :=
  ⟨[⟨['.', '.'], FileType.folder⟩, ⟨['a'], FileType.other⟩,
    ⟨['b'], FileType.other⟩, ⟨['c'], FileType.other⟩], 2, 0, ['/', 't']⟩

/-- Oracle for the delete-the-last-entry scenario: after `rm -rf "/t/a"`,
reading `/t` yields only `..`. -/
def envD : Env :=
  { fs := fun p => if p = ['/', 't'] then some [⟨['.', '.'], some statDir⟩] else none
    getcwdAfterChdir := fun _ => ['/', 't']
    getcwdNoChdir := ['/', 't']
    destNames := []
    listH := 5 }

/-- Oracle for scenario E: after `rm -rf "/t/b"`, reading `/t` yields
`.., a, c`. -/
def envE : Env :=
  { fs := fun p => if p = ['/', 't'] then
        some [⟨['.', '.'], some statDir⟩, ⟨['a'], some statFile⟩, ⟨['c'], some statFile⟩]
      else none
    getcwdAfterChdir := fun _ => ['/', 't']
    getcwdNoChdir := ['/', 't']
    destNames := []
    listH := 5 }

/-- App state for the delete-the-last-entry scenario. -/
def stateD : AppState := ⟨panelLastSel, panelRoot, true, [], [], [], false, []⟩

/-- App state for scenario E. -/
def stateE : AppState := ⟨panelScenE, panelRoot, true, [], [], [], false, []⟩

/-- Adjacency ordering property claimed for every refreshed listing:
consecutive entries are folder-before-non-folder, or they are in the same
class (folder/non-folder) with strictly increasing byte-wise names. -/
def adjacentOrdered (l : List Entry) : Prop :=
  ∀ i, (h : i + 1 < l.length) →
    ((l.get ⟨i, Nat.lt_of_succ_lt h⟩).type = FileType.folder ∧
        (l.get ⟨i + 1, h⟩).type ≠ FileType.folder) ∨
    (((l.get ⟨i, Nat.lt_of_succ_lt h⟩).type = FileType.folder ↔
        (l.get ⟨i + 1, h⟩).type = FileType.folder) ∧
      strcmpS (l.get ⟨i, Nat.lt_of_succ_lt h⟩).name (l.get ⟨i + 1, h⟩).name < 0)

theorem list_dir_cwd (p : Panel) (d : Option (List RawEntry)) :
    (list_dir p d).cwd = p.cwd := by
  cases d <;> rfl

theorem open_entry_selected (env : Env) (p : Panel) :
    (open_entry env p).selected = 0 := rfl

theorem open_entry_scroll (env : Env) (p : Panel) :
    (open_entry env p).scroll_offset = 0 := rfl

theorem draw_panel_fixed (listH : Nat) (p : Panel) (h1 : p.selected = 0)
    (h2 : p.scroll_offset = 0) (hl : 0 < listH) : draw_panel listH p = p := by
  rcases p with ⟨e, sel, so, c⟩
  dsimp only at h1 h2
  subst h1; subst h2
  have hx : ¬ (listH ≤ 0) := by omega
  simp [draw_panel, hx]

/-- C2: the `if (ch == 'q') break;` at line 216 runs before the
rename-mode dispatch, so a `q` keystroke terminates the program in every
mode — also while renaming, where the spec says it is swallowed as a
normal character. -/
theorem quit_on_q_ignores_mode (env : Env) (s : AppState) :
    step env s 113 = none := by
  simp [step, dispatch]

/-- C9: committing a rename with Enter (line 219) unconditionally leaves
rename mode and clears the rename buffer (lines 226-227), whatever the
buffer content and whatever the `rename`/`opendir` outcomes supplied by the
environment. -/
theorem rename_commit_exits_and_clears (env : Env) (s : AppState)
    (h : s.rename_mode = true) :
    (step env s 10).map (fun out => (out.1.rename_mode, out.1.rename_buf)) =
      some (false, ([] : List Char)) := by
  simp [step, dispatch, h]

theorem rename_commit_exits_and_clears_witness :
    (step envD { stateD with rename_mode := true } 10).map
      (fun out => (out.1.rename_mode, out.1.rename_buf)) =
      some (false, ([] : List Char)) :=
  rename_commit_exits_and_clears envD { stateD with rename_mode := true } rfl

/-- C8: F2 with an empty clipboard falls through every handler (the guard
at line 267 fails, and `KEY_F(2) ≥ 256` is not a printable byte), so the
dispatch returns the state unchanged; after the redraw of an already
reconciled state the whole iteration is the identity. -/
theorem paste_empty_clipboard_noop (env : Env) (s : AppState)
    (hc : s.clipboard = []) :
    dispatch env s KEY_F2 = some (s, none) ∧
    (draw_panel env.listH s.l = s.l → draw_panel env.listH s.r = s.r →
      step env s KEY_F2 = some (s, none)) := by
  have hd : dispatch env s KEY_F2 = some (s, none) := by
    by_cases hr : s.rename_mode <;>
      simp [dispatch, KEY_F2, KEY_F3, KEY_UP, KEY_DOWN, KEY_F1, KEY_F5,
        KEY_BACKSPACE, hr, hc]
  refine ⟨hd, fun h1 h2 => ?_⟩
  simp [step, hd, h1, h2]

theorem paste_empty_clipboard_noop_witness :
    step envD stateD KEY_F2 = some (stateD, none) :=
  (paste_empty_clipboard_noop envD stateD rfl).2 (by decide) (by decide)

/-- C10: Enter with an empty input buffer runs `open_entry` on the focused
pane (line 258); on every branch of `open_entry` — `..`, folder, text, and
all other kinds — the pane's cwd is re-read from the process working
directory, the listing is refreshed, and `selected` and `scroll_offset`
are reset to `0` (lines 147-148). -/
theorem enter_open_resets_view (env : Env) (s : AppState)
    (hm : s.rename_mode = false) (hi : s.input = []) (hl : 0 < env.listH) :
    (step env s 10).map (fun out => (focusedPanel out.1, out.2)) =
      some (open_entry env (focusedPanel s), none) ∧
    (∀ p, (open_entry env p).selected = 0 ∧ (open_entry env p).scroll_offset = 0) ∧
    (∀ p, (open_entry env p).cwd = open_cwd env p) := by
  refine ⟨?_, fun p => ⟨rfl, rfl⟩, fun p => ?_⟩
  · cases hf : s.focus_left
    · have hdraw := draw_panel_fixed env.listH (open_entry env s.r) rfl rfl hl
      simp [step, dispatch, hm, hi, setFocused, focusedPanel, hf, hdraw,
        KEY_UP, KEY_DOWN, KEY_F1, KEY_F2, KEY_F3, KEY_F5, KEY_BACKSPACE]
    · have hdraw := draw_panel_fixed env.listH (open_entry env s.l) rfl rfl hl
      simp [step, dispatch, hm, hi, setFocused, focusedPanel, hf, hdraw,
        KEY_UP, KEY_DOWN, KEY_F1, KEY_F2, KEY_F3, KEY_F5, KEY_BACKSPACE]
  · show (list_dir { p with cwd := open_cwd env p } (env.fs (open_cwd env p))).cwd
        = open_cwd env p
    rw [list_dir_cwd]

/-- C7 part: `opendir` failure leaves the whole panel untouched (line 60),
and an entry whose `stat` fails is still listed, classified `TYPE_OTHER`
(line 72). -/
theorem refresh_failure_semantics :
    (∀ p : Panel, list_dir p none = p) ∧
    (∀ (p : Panel) (raw : List RawEntry) (e : RawEntry),
      e ∈ raw → e.st = none → e.name ≠ ['.'] → raw.length ≤ MAX_FILES →
      (⟨e.name, FileType.other⟩ : Entry) ∈ (list_dir p (some raw)).entries) := by
  constructor
  · intro p; rfl
  · intro p raw e he hst hname hlen
    have hfe : e ∈ raw.filter (fun x => x.name ≠ ['.']) := by
      rw [List.mem_filter]; exact ⟨he, by simp [hname]⟩
    have hlen2 : (raw.filter (fun x => x.name ≠ ['.'])).length ≤ MAX_FILES :=
      le_trans (List.length_filter_le _ _) hlen
    have htake : (raw.filter (fun x => x.name ≠ ['.'])).take MAX_FILES
        = raw.filter (fun x => x.name ≠ ['.']) := List.take_of_length_le hlen2
    simp only [list_dir, sortEntries]
    rw [(List.perm_insertionSort entryLe _).mem_iff]
    rw [htake]
    exact List.mem_map.mpr ⟨e, hfe, by simp [scan_entry, hst]⟩

theorem refresh_failure_semantics_witness :
    (⟨['x'], FileType.other⟩ : Entry) ∈
      (list_dir panelRoot (some [⟨['x'], none⟩])).entries :=
  refresh_failure_semantics.2 panelRoot [⟨['x'], none⟩] ⟨['x'], none⟩
    (by decide) rfl (by decide) (by decide)

theorem enter_open_resets_view_witness :
    (step envE stateE 10).map (fun out => (focusedPanel out.1, out.2)) =
      some (open_entry envE (focusedPanel stateE), none) :=
  (enter_open_resets_view envE stateE rfl rfl (by decide)).1

/-- C1: deleting the last entry of a two-entry listing leaves
`selected = 1 = count` after the refresh and the redraw — the cursor is not
clamped below the new entry count, violating the cursor-containment
invariant (`selected < count`). -/
theorem delete_last_entry_cursor_out_of_range :
    (step envD stateD KEY_F5).map
      (fun out => (out.1.l.selected, out.1.l.entries.length)) = some (1, 1) := by
  decide

/-- C3: with the cursor on `b` in `["..", "a", "b", "c"]`, F5 sets the
status from `entries[selected].name` read after the refresh (line 297), so
the transient status text is `"Deleted c"`, not the `"Deleted b"` the spec
mandates. -/
theorem delete_status_names_wrong_entry :
    (step envE stateE KEY_F5).map (fun out => out.2) =
      some (some ['D', 'e', 'l', 'e', 't', 'e', 'd', ' ', 'c']) ∧
    (['D', 'e', 'l', 'e', 't', 'e', 'd', ' ', 'c'] : List Char) ≠
      ['D', 'e', 'l', 'e', 't', 'e', 'd', ' ', 'b'] := by
  decide

theorem strrchr_mem {s : List Char} {c : Char} {t : List Char}
    (h : strrchr s c = some t) : c ∈ s := by
  induction s with
  | nil => simp [strrchr] at h
  | cons a rest ih =>
    simp only [strrchr] at h
    cases hr : strrchr rest c with
    | some r =>
      rw [hr] at h
      cases h
      exact List.mem_cons_of_mem a (ih hr)
    | none =>
      rw [hr] at h
      by_cases hac : a = c
      · subst hac; exact List.mem_cons_self a rest
      · simp [hac] at h

theorem strrchr_isSuffix {s : List Char} {c : Char} {t : List Char}
    (h : strrchr s c = some t) : t <:+ s := by
  induction s with
  | nil => simp [strrchr] at h
  | cons a rest ih =>
    simp only [strrchr] at h
    cases hr : strrchr rest c with
    | some r =>
      rw [hr] at h
      cases h
      exact (ih hr).trans (List.suffix_cons a rest)
    | none =>
      rw [hr] at h
      by_cases hac : a = c
      · subst hac
        rw [if_pos rfl] at h
        cases h
        exact List.suffix_refl _
      · simp [hac] at h

theorem strrchr_head {s : List Char} {c : Char} {t : List Char}
    (h : strrchr s c = some t) : ∃ u, t = c :: u := by
  induction s with
  | nil => simp [strrchr] at h
  | cons a rest ih =>
    simp only [strrchr] at h
    cases hr : strrchr rest c with
    | some r => rw [hr] at h; cases h; exact ih hr
    | none =>
      rw [hr] at h
      by_cases hac : a = c
      · subst hac
        rw [if_pos rfl] at h
        cases h
        exact ⟨rest, rfl⟩
      · simp [hac] at h

theorem dot_mem_basename {path t : List Char} (hsuf : t <:+ path)
    (hdot : '.' ∈ t) (hslash : '/' ∉ t) : '.' ∈ basename path := by
  induction path with
  | nil =>
    rw [List.suffix_nil.mp hsuf] at hdot
    simp at hdot
  | cons a rest ih =>
    rcases List.suffix_cons_iff.mp hsuf with heq | hsuf'
    · subst heq
      cases hr : strrchr rest '/' with
      | some s2 => exact absurd (List.mem_cons_of_mem a (strrchr_mem hr)) hslash
      | none =>
        by_cases ha : a = '/'
        · exact absurd (by rw [ha]; exact List.mem_cons_self _ _) hslash
        · have hb : basename (a :: rest) = a :: rest := by
            simp [basename, strrchr, hr, ha]
          rw [hb]; exact hdot
    · cases hr : strrchr rest '/' with
      | some s2 =>
        have hb : basename (a :: rest) = basename rest := by
          simp [basename, strrchr, hr]
        rw [hb]; exact ih hsuf'
      | none =>
        by_cases ha : a = '/'
        · have hb : basename (a :: rest) = rest := by
            simp [basename, strrchr, hr, ha]
          rw [hb]; exact hsuf'.subset hdot
        · have hb : basename (a :: rest) = a :: rest := by
            simp [basename, strrchr, hr, ha]
          rw [hb]; exact List.mem_cons_of_mem a (hsuf'.subset hdot)

/-- C6: the classifier gives directories priority over any extension, then
the owner-executable bit, then the exact case-sensitive last-dot-segment
lookup ({.txt, .md} → Text, {.png, .jpg} → Image, {.mp4, .mkv} → Video, so
`foo.MD` is Other), and a basename without a dot is always Other. -/
theorem detect_file_type_spec :
    (∀ (path : List Char) (st : Stat), st.isDir = true →
      detect_file_type path st = FileType.folder) ∧
    (∀ (path : List Char) (st : Stat), st.isDir = false → st.ownerExec = true →
      detect_file_type path st = FileType.exec) ∧
    (∀ (path : List Char) (st : Stat), st.isDir = false → st.ownerExec = false →
      ∀ ext, strrchr path '.' = some ext →
      detect_file_type path st =
        (if ext = ['.', 't', 'x', 't'] ∨ ext = ['.', 'm', 'd'] then FileType.text
         else if ext = ['.', 'p', 'n', 'g'] ∨ ext = ['.', 'j', 'p', 'g'] then FileType.image
         else if ext = ['.', 'm', 'p', '4'] ∨ ext = ['.', 'm', 'k', 'v'] then FileType.video
         else FileType.other)) ∧
    detect_file_type ['f', 'o', 'o', '.', 'm', 'd'] statFile = FileType.text ∧
    detect_file_type ['f', 'o', 'o', '.', 'M', 'D'] statFile = FileType.other ∧
    (∀ (path : List Char) (st : Stat), st.isDir = false → st.ownerExec = false →
      '.' ∉ basename path → detect_file_type path st = FileType.other) := by
  refine ⟨?_, ?_, ?_, by decide, by decide, ?_⟩
  · intro path st h; simp [detect_file_type, h]
  · intro path st h1 h2; simp [detect_file_type, h1, h2]
  · intro path st h1 h2 ext hext
    simp [detect_file_type, h1, h2, hext]
  · intro path st h1 h2 hnd
    cases hx : strrchr path '.' with
    | none => simp [detect_file_type, h1, h2, hx]
    | some ext =>
      have hsuf := strrchr_isSuffix hx
      obtain ⟨u, hu⟩ := strrchr_head hx
      have hde : '.' ∈ ext := by rw [hu]; exact List.mem_cons_self _ _
      have hne : ∀ l : List Char, '/' ∉ l → ext ≠ l := by
        intro l hs heq
        exact hnd (dot_mem_basename hsuf hde (by rw [heq]; exact hs))
      simp only [detect_file_type, h1, h2, hx, Bool.false_eq_true, if_false]
      rw [if_neg (not_or.mpr ⟨hne _ (by decide), hne _ (by decide)⟩),
        if_neg (not_or.mpr ⟨hne _ (by decide), hne _ (by decide)⟩),
        if_neg (not_or.mpr ⟨hne _ (by decide), hne _ (by decide)⟩)]

theorem detect_file_type_spec_witness :
    detect_file_type ['f', 'o', 'o', '.', 'm', 'd'] statDir = FileType.folder ∧
    detect_file_type ['R', 'E', 'A', 'D', 'M', 'E'] statFile = FileType.other :=
  ⟨detect_file_type_spec.1 _ statDir rfl,
   detect_file_type_spec.2.2.2.2.2 _ statFile rfl rfl (by decide)⟩

theorem strcmpS_eq_zero_iff (a b : List Char) : strcmpS a b = 0 ↔ a = b := by
  induction a generalizing b with
  | nil => cases b <;> simp [strcmpS]
  | cons x as ih =>
    cases b with
    | nil => simp [strcmpS]
    | cons y bs =>
      simp only [strcmpS]
      rcases lt_trichotomy x y with h | h | h
      · rw [if_pos h]
        simp [ne_of_lt h]
      · subst h
        rw [if_neg (lt_irrefl x), if_neg (lt_irrefl x)]
        simp [ih bs]
      · rw [if_neg (asymm h), if_pos h]
        simp [ne_of_gt h]

theorem strcmpS_antisymm (a b : List Char) : strcmpS b a = - strcmpS a b := by
  induction a generalizing b with
  | nil => cases b <;> simp [strcmpS]
  | cons x as ih =>
    cases b with
    | nil => simp [strcmpS]
    | cons y bs =>
      simp only [strcmpS]
      rcases lt_trichotomy x y with h | h | h
      · simp [h, asymm h]
      · subst h
        simp [lt_irrefl x, ih bs]
      · simp [h, asymm h]

theorem strcmpS_lt_trans {a b c : List Char} (h1 : strcmpS a b < 0)
    (h2 : strcmpS b c < 0) : strcmpS a c < 0 := by
  induction a generalizing b c with
  | nil =>
    cases c with
    | nil => cases b <;> simp [strcmpS] at h2
    | cons z cs => simp [strcmpS]
  | cons x as ih =>
    cases b with
    | nil => simp [strcmpS] at h1
    | cons y bs =>
      cases c with
      | nil => simp [strcmpS] at h2
      | cons z cs =>
        simp only [strcmpS] at h1 h2 ⊢
        rcases lt_trichotomy x y with hxy | hxy | hxy
        · rcases lt_trichotomy y z with hyz | hyz | hyz
          · simp [lt_trans hxy hyz]
          · subst hyz; simp [hxy]
          · rw [if_neg (asymm hyz), if_pos hyz] at h2; norm_num at h2
        · subst hxy
          rcases lt_trichotomy x z with hyz | hyz | hyz
          · simp [hyz]
          · subst hyz
            rw [if_neg (lt_irrefl x), if_neg (lt_irrefl x)] at h1 h2 ⊢
            exact ih h1 h2
          · rw [if_neg (asymm hyz), if_pos hyz] at h2; norm_num at h2
        · rw [if_neg (asymm hxy), if_pos hxy] at h1; norm_num at h1

theorem strcmpS_le_trans {a b c : List Char} (h1 : strcmpS a b ≤ 0)
    (h2 : strcmpS b c ≤ 0) : strcmpS a c ≤ 0 := by
  rcases lt_or_eq_of_le h1 with h1l | h1e
  · rcases lt_or_eq_of_le h2 with h2l | h2e
    · exact le_of_lt (strcmpS_lt_trans h1l h2l)
    · have hbc : b = c := (strcmpS_eq_zero_iff b c).mp h2e
      subst hbc; exact h1
  · have hab : a = b := (strcmpS_eq_zero_iff a b).mp h1e
    subst hab; exact h2

theorem strcmpS_total (a b : List Char) : strcmpS a b ≤ 0 ∨ strcmpS b a ≤ 0 := by
  rcases le_or_lt (strcmpS a b) 0 with h | h
  · exact Or.inl h
  · right; rw [strcmpS_antisymm]; omega

theorem entryLe_total (ea eb : Entry) : entryLe ea eb ∨ entryLe eb ea := by
  by_cases ha : ea.type = FileType.folder <;> by_cases hb : eb.type = FileType.folder
  · simpa [compare_entries, ha, hb] using strcmpS_total ea.name eb.name
  · left; simp [entryLe, compare_entries, ha, hb]
  · right; simp [entryLe, compare_entries, ha, hb]
  · simpa [compare_entries, ha, hb] using strcmpS_total ea.name eb.name

theorem entryLe_trans (a b c : Entry) (h1 : entryLe a b) (h2 : entryLe b c) :
    entryLe a c := by
  by_cases ha : a.type = FileType.folder <;> by_cases hb : b.type = FileType.folder <;>
    by_cases hc : c.type = FileType.folder <;>
    simp [entryLe, compare_entries, ha, hb, hc] at h1 h2 ⊢ <;>
    exact strcmpS_le_trans h1 h2

theorem scan_entry_name (cwd : List Char) (e : RawEntry) :
    (scan_entry cwd e).name = e.name := by
  rcases e with ⟨n, st⟩
  cases st <;> rfl

/-- C5: after any successful refresh, consecutive entries are either a
folder followed by a non-folder, or two entries of the same class (both
folders or both non-folders) in strictly increasing byte-wise order; and
`"."` never appears (it is skipped at line 65).  The hypothesis is that
`readdir` yields pairwise distinct names, which holds for every real
directory. -/
theorem listing_ordered_and_no_dot (p : Panel) (raw : List RawEntry)
    (hnd : (raw.map RawEntry.name).Nodup) :
    adjacentOrdered (list_dir p (some raw)).entries ∧
    ∀ e ∈ (list_dir p (some raw)).entries, e.name ≠ ['.'] := by
  haveI htot : IsTotal Entry entryLe := ⟨entryLe_total⟩
  haveI htrans : IsTrans Entry entryLe := ⟨entryLe_trans⟩
  have hent : (list_dir p (some raw)).entries =
      List.insertionSort entryLe
        (((raw.filter (fun e => e.name ≠ ['.'])).take MAX_FILES).map (scan_entry p.cwd)) := rfl
  have hsorted := List.sorted_insertionSort entryLe
    (((raw.filter (fun e => e.name ≠ ['.'])).take MAX_FILES).map (scan_entry p.cwd))
  have hperm := List.perm_insertionSort entryLe
    (((raw.filter (fun e => e.name ≠ ['.'])).take MAX_FILES).map (scan_entry p.cwd))
  have hnames_pre :
      ((((raw.filter (fun e => e.name ≠ ['.'])).take MAX_FILES).map (scan_entry p.cwd)).map
        Entry.name).Nodup := by
    rw [List.map_map]
    have heq : ((raw.filter (fun e => e.name ≠ ['.'])).take MAX_FILES).map
          (Entry.name ∘ scan_entry p.cwd) =
        ((raw.filter (fun e => e.name ≠ ['.'])).take MAX_FILES).map RawEntry.name :=
      List.map_congr_left (fun e _ => scan_entry_name p.cwd e)
    rw [heq]
    exact hnd.sublist
      (((List.take_sublist _ _).trans (List.filter_sublist _)).map RawEntry.name)
  have hnames : (((list_dir p (some raw)).entries).map Entry.name).Nodup := by
    rw [hent]
    exact ((hperm.map Entry.name).nodup_iff).mpr hnames_pre
  constructor
  · intro i h
    have hi : i < (list_dir p (some raw)).entries.length := Nat.lt_of_succ_lt h
    have hrel : entryLe ((list_dir p (some raw)).entries.get ⟨i, hi⟩)
        ((list_dir p (some raw)).entries.get ⟨i + 1, h⟩) :=
      hsorted.rel_get_of_lt (by simp [Fin.lt_def])
    have hpw := (List.pairwise_map.mp hnames)
    have hne : ((list_dir p (some raw)).entries.get ⟨i, hi⟩).name ≠
        ((list_dir p (some raw)).entries.get ⟨i + 1, h⟩).name :=
      (List.pairwise_iff_get.mp hpw) ⟨i, hi⟩ ⟨i + 1, h⟩ (by simp [Fin.lt_def])
    have hlt : strcmpS ((list_dir p (some raw)).entries.get ⟨i, hi⟩).name
          ((list_dir p (some raw)).entries.get ⟨i + 1, h⟩).name ≤ 0 →
        strcmpS ((list_dir p (some raw)).entries.get ⟨i, hi⟩).name
          ((list_dir p (some raw)).entries.get ⟨i + 1, h⟩).name < 0 := fun hle =>
      lt_of_le_of_ne hle (fun h0 => hne ((strcmpS_eq_zero_iff _ _).mp h0))
    have hrel2 : compare_entries ((list_dir p (some raw)).entries.get ⟨i, hi⟩)
        ((list_dir p (some raw)).entries.get ⟨i + 1, h⟩) ≤ 0 := hrel
    unfold compare_entries at hrel2
    by_cases hA : ((list_dir p (some raw)).entries.get ⟨i, hi⟩).type = FileType.folder <;>
      by_cases hB : ((list_dir p (some raw)).entries.get ⟨i + 1, h⟩).type = FileType.folder
    · right
      refine ⟨iff_of_true hA hB, ?_⟩
      apply hlt
      rw [if_neg (fun hand => hand.2 hB), if_neg (fun hand => hand.1 hA)] at hrel2
      exact hrel2
    · exact Or.inl ⟨hA, hB⟩
    · exfalso
      rw [if_neg (fun hand => hA hand.1), if_pos ⟨hA, hB⟩] at hrel2
      norm_num at hrel2
    · right
      refine ⟨iff_of_false hA hB, ?_⟩
      apply hlt
      rw [if_neg (fun hand => hA hand.1), if_neg (fun hand => hB hand.2)] at hrel2
      exact hrel2
  · intro e he
    rw [hent] at he
    have he2 := hperm.mem_iff.mp he
    obtain ⟨x, hx, hxe⟩ := List.mem_map.mp he2
    rw [← hxe, scan_entry_name]
    have hx2 := List.mem_of_mem_take hx
    have := (List.mem_filter.mp hx2).2
    simpa using this

theorem listing_ordered_and_no_dot_witness :
    adjacentOrdered (list_dir panelRoot
      (some [⟨['b'], some statFile⟩, ⟨['.'], some statDir⟩,
             ⟨['s'], some statDir⟩, ⟨['a'], some statFile⟩])).entries ∧
    ∀ e ∈ (list_dir panelRoot
      (some [⟨['b'], some statFile⟩, ⟨['.'], some statDir⟩,
             ⟨['s'], some statDir⟩, ⟨['a'], some statFile⟩])).entries,
      e.name ≠ ['.'] :=
  listing_ordered_and_no_dot panelRoot
    [⟨['b'], some statFile⟩, ⟨['.'], some statDir⟩,
     ⟨['s'], some statDir⟩, ⟨['a'], some statFile⟩] (by decide)

theorem digitChar_inj : ∀ d < 10, ∀ e < 10, digitChar d = digitChar e → d = e := by
  decide

theorem map_digitChar_inj : ∀ (l1 l2 : List Nat), (∀ d ∈ l1, d < 10) →
    (∀ d ∈ l2, d < 10) → l1.map digitChar = l2.map digitChar → l1 = l2 := by
  intro l1
  induction l1 with
  | nil =>
    intro l2 _ _ h
    cases l2 with
    | nil => rfl
    | cons e es => simp at h
  | cons d ds ih =>
    intro l2 h1 h2 h
    cases l2 with
    | nil => simp at h
    | cons e es =>
      simp only [List.map_cons, List.cons.injEq] at h
      have hd := digitChar_inj d (h1 d (List.mem_cons_self _ _))
        e (h2 e (List.mem_cons_self _ _)) h.1
      rw [hd, ih es (fun x hx => h1 x (List.mem_cons_of_mem _ hx))
        (fun x hx => h2 x (List.mem_cons_of_mem _ hx)) h.2]

theorem natDecimal_inj {n m : Nat} (h : natDecimal n = natDecimal m) : n = m := by
  unfold natDecimal at h
  have hrev : (Nat.digits 10 n).reverse = (Nat.digits 10 m).reverse :=
    map_digitChar_inj _ _
      (fun d hd => Nat.digits_lt_base (by norm_num) (List.mem_reverse.mp hd))
      (fun d hd => Nat.digits_lt_base (by norm_num) (List.mem_reverse.mp hd)) h
  exact Nat.digits.injective 10 (List.reverse_injective hrev)

theorem natDecimal_ne_nil {n : Nat} (h : n ≠ 0) : natDecimal n ≠ [] := by
  unfold natDecimal
  simp only [ne_eq, List.map_eq_nil_iff, List.reverse_eq_nil_iff]
  exact Nat.digits_ne_nil_iff_ne_zero.mpr h

theorem targetName_inj (base : List Char) : Function.Injective (targetName base) := by
  intro i j h
  unfold targetName at h
  by_cases hi : i = 0 <;> by_cases hj : j = 0
  · rw [hi, hj]
  · exfalso
    rw [if_pos hi, if_neg hj] at h
    have hlen := congrArg List.length h
    rw [List.length_append] at hlen
    have hz : (natDecimal j).length = 0 := by omega
    exact natDecimal_ne_nil hj (List.length_eq_zero.mp hz)
  · exfalso
    rw [if_neg hi, if_pos hj] at h
    have hlen := congrArg List.length h
    rw [List.length_append] at hlen
    have hz : (natDecimal i).length = 0 := by omega
    exact natDecimal_ne_nil hi (List.length_eq_zero.mp hz)
  · rw [if_neg hi, if_neg hj] at h
    exact natDecimal_inj (List.append_cancel_left h)

theorem exists_fresh (dir : List (List Char)) (base : List Char) :
    ∃ j, j ≤ dir.length ∧ targetName base j ∉ dir := by
  by_contra hcon
  push_neg at hcon
  have hsub : ((List.range (dir.length + 1)).map (targetName base)) ⊆ dir := by
    intro x hx
    obtain ⟨j, hj, hjx⟩ := List.mem_map.mp hx
    rw [← hjx]
    exact hcon j (Nat.lt_succ_iff.mp (List.mem_range.mp hj))
  have hnd : ((List.range (dir.length + 1)).map (targetName base)).Nodup :=
    (List.nodup_range _).map (targetName_inj base)
  have hle := (List.subperm_of_subset hnd hsub).length_le
  rw [List.length_map, List.length_range] at hle
  omega

theorem pasteProbe_spec (dir : List (List Char)) (base : List Char) :
    ∀ (fuel i : Nat), (∃ j, j ≤ fuel ∧ targetName base (i + j) ∉ dir) →
      pasteProbe dir base fuel i ∉ dir ∧
      ∃ j, pasteProbe dir base fuel i = targetName base (i + j) ∧
        ∀ k, k < j → targetName base (i + k) ∈ dir := by
  intro fuel
  induction fuel with
  | zero =>
    intro i hex
    obtain ⟨j, hj0, hj⟩ := hex
    have hjz : j = 0 := Nat.le_zero.mp hj0
    subst hjz
    exact ⟨by simpa [pasteProbe] using hj, 0, by simp [pasteProbe],
      fun k hk => absurd hk (Nat.not_lt_zero k)⟩
  | succ f ih =>
    intro i hex
    by_cases hmem : targetName base i ∈ dir
    · have hex2 : ∃ j, j ≤ f ∧ targetName base (i + 1 + j) ∉ dir := by
        obtain ⟨j, hj0, hj⟩ := hex
        cases j with
        | zero => rw [Nat.add_zero] at hj; exact absurd hmem hj
        | succ j2 =>
          refine ⟨j2, by omega, ?_⟩
          rw [show i + 1 + j2 = i + (j2 + 1) by omega]
          exact hj
      obtain ⟨hnot, j2, hj2eq, hj2min⟩ := ih (i + 1) hex2
      refine ⟨by simpa [pasteProbe, hmem] using hnot, j2 + 1, ?_, ?_⟩
      · rw [show i + (j2 + 1) = i + 1 + j2 by omega]
        simpa [pasteProbe, hmem] using hj2eq
      · intro k hk
        cases k with
        | zero => simpa using hmem
        | succ k2 =>
          rw [show i + (k2 + 1) = i + 1 + k2 by omega]
          exact hj2min k2 (by omega)
    · exact ⟨by simp [pasteProbe, hmem], 0, by simp [pasteProbe, hmem],
        fun k hk => absurd hk (Nat.not_lt_zero k)⟩

/-- C4: the name Paste chooses is the first of `base, base1, base2, …`
(decimal suffix from 1) that does not exist in the destination directory;
in particular it does not exist there at the moment the copy is invoked.
`resolveTarget` is exactly the probe run by the F2 branch of `dispatch`. -/
theorem paste_target_fresh (dir : List (List Char)) (base : List Char) :
    resolveTarget dir base ∉ dir ∧
    ∃ j, resolveTarget dir base = targetName base j ∧
      ∀ k, k < j → targetName base k ∈ dir := by
  obtain ⟨j, hj0, hj⟩ := exists_fresh dir base
  obtain ⟨hnot, j2, heq, hmin⟩ := pasteProbe_spec dir base (dir.length + 1) 0
    ⟨j, by omega, by simpa using hj⟩
  exact ⟨hnot, j2, by simpa using heq, fun k hk => by simpa using hmin k hk⟩

theorem paste_target_fresh_witness :
    resolveTarget [['a'], ['a', '1']] ['a'] ∉ [['a'], ['a', '1']] ∧
    ∃ j, resolveTarget [['a'], ['a', '1']] ['a'] = targetName ['a'] j ∧
      ∀ k, k < j → targetName ['a'] k ∈ [['a'], ['a', '1']] :=
  paste_target_fresh [['a'], ['a', '1']] ['a']
